import Mathlib

/-!
Verification of the hhuTOS dynamic-memory subsystem: the bump allocator
(src/os/src/kernel/allocator/bump.rs) and the free-list allocator
(src/os/src/kernel/allocator/list.rs), shallowly embedded over Nat.

Addresses and sizes are Rust usize values on the x86-64 target, modelled as
Nat with overflow made explicit where the source checks it (checked_add) or
where wrapping can occur (end_addr).  A Rust panic (assert! failure or
.expect) is modelled as Option.none.
-/

namespace HhuTOS

/-- Number of values of the 64-bit usize type of the x86-64 target. -/
def USIZE : Nat := 2 ^ 64

/-- Rust usize checked_add: some sum if representable, none on overflow. -/
def checked_add (a b : Nat) : Option Nat :=
  if a + b < USIZE then some (a + b) else none

/-- Modelled from the spec: the Alignment Utility (align_up, declared in the
allocator module that is not among the given sources): given an address and a
power-of-two alignment, returns the smallest address greater than or equal to
the input that is a multiple of the alignment. -/
def align_up (addr align : Nat) : Nat :=
  ((addr + align - 1) / align) * align

/-- Rust core alloc Layout: the (size, alignment) pair of an allocation
request.  The Rust type additionally guarantees that align is a power of two
(at least 1); theorems that need this take it as a hypothesis. -/
structure Layout where
  size : Nat
  align : Nat
deriving Repr, DecidableEq

/-- Rust Layout type invariant: the alignment is a power of two. -/
def Layout.valid (l : Layout) : Prop := ∃ k : Nat, l.align = 2 ^ k

instance (l : Layout) : Decidable l.valid := by
  unfold Layout.valid
  exact decidable_of_iff (l.align ≠ 0 ∧ l.align = 2 ^ (l.align.log2))
    ⟨fun h => ⟨l.align.log2, h.2⟩,
     fun ⟨k, hk⟩ => ⟨by simp [hk], by rw [hk, Nat.log2_two_pow]⟩⟩

/-- mem size_of of ListNode on x86-64: a usize plus a 64-bit option-of-reference
niche, 16 bytes. -/
def listNodeSize : Nat := 16

/-- mem align_of of ListNode on x86-64: 8 bytes. -/
def listNodeAlign : Nat := 8

/-- The free list of LinkedListAllocator: the chain hanging off head.next,
front of the list first; each node is (start address, size).  The dummy head
node itself carries no block, so it is not represented. -/
abbrev FreeList := List (Nat × Nat)

/-- ListNode end_addr: start_addr + size (usize addition, wraps on overflow
in a release build). -/
def end_addr (addr size : Nat) : Nat := (addr + size) % USIZE

/-- LinkedListAllocator size_align: widen the layout so the allocated block
can later hold a ListNode.  align_to raises the alignment to at least the
node alignment, pad_to_align rounds the size up to a multiple of that
alignment, and the size is at least one node header. -/
def size_align (layout : Layout) : Nat × Nat :=
  let align := max layout.align listNodeAlign
  let size := align_up layout.size align
  (max size listNodeSize, align)

/-- LinkedListAllocator check_block_for_alloc: Ok (modelled some) with the
aligned allocation start if the block (addr, nsize) can hold an allocation of
the given size and alignment; Err (modelled none) if the aligned end
overflows, exceeds the block end, or leaves an excess smaller than one node
header. -/
def check_block_for_alloc (addr nsize size align : Nat) : Option Nat :=
  let alloc_start := align_up addr align
  match checked_add alloc_start size with
  | none => none
  | some alloc_end =>
    if alloc_end > end_addr addr nsize then none
    else
      let excess_size := end_addr addr nsize - alloc_end
      if excess_size > 0 ∧ excess_size < listNodeSize then none
      else some alloc_start

/-- LinkedListAllocator find_free_block: scan the free list front to back and
remove the first node that check_block_for_alloc accepts, returning the node
and the remaining list. -/
def find_free_block : FreeList → Nat → Nat → Option ((Nat × Nat) × FreeList)
  | [], _, _ => none
  | b :: rest, size, align =>
    match check_block_for_alloc b.1 b.2 size align with
    | some _ => some (b, rest)
    | none =>
      match find_free_block rest size align with
      | none => none
      | some (r, l) => some (r, b :: l)

/-- LinkedListAllocator add_free_block: assert the address is node-aligned and
the size holds a node header (none models an assert! panic), then push the
node onto the front of the free list. -/
def add_free_block (l : FreeList) (addr size : Nat) : Option FreeList :=
  if align_up addr listNodeAlign = addr ∧ size ≥ listNodeSize then
    some ((addr, size) :: l)
  else none

/-- LinkedListAllocator init: add the whole heap as one free block. -/
def list_init (heap_start heap_end : Nat) : Option FreeList :=
  add_free_block [] heap_start (heap_end - heap_start)

/-- LinkedListAllocator alloc.  Result: none models a panic (the expect on
overflow, or an assert! inside add_free_block); some (a, l) is the returned
address (0 for the null out-of-memory sentinel) and the free list afterwards.
Note the source takes alloc_start from block.start_addr(), not from the
aligned start that check_block_for_alloc computed. -/
def list_alloc (l : FreeList) (layout : Layout) : Option (Nat × FreeList) :=
  let sa := size_align layout
  match find_free_block l sa.1 sa.2 with
  | some (b, rest) =>
    let alloc_start := b.1
    match checked_add alloc_start sa.1 with
    | none => none
    | some alloc_end =>
      let excess_size := end_addr b.1 b.2 - alloc_end
      if excess_size > 0 then
        match add_free_block rest alloc_end excess_size with
        | none => none
        | some rest2 => some (alloc_start, rest2)
      else some (alloc_start, rest)
  | none => some (0, l)

/-- LinkedListAllocator dealloc: recompute the widened size from the layout
and push a fresh node at the released address onto the front of the list. -/
def list_dealloc (l : FreeList) (ptr : Nat) (layout : Layout) : Option FreeList :=
  add_free_block l ptr (size_align layout).1

/-- Sum of the sizes of all nodes on the free list. -/
def totalFree (l : FreeList) : Nat := (l.map Prod.snd).sum

/-- BumpAllocator state. -/
structure BumpAllocator where
  heap_start : Nat
  heap_end : Nat
  next : Nat
  allocations : Nat
deriving Repr, DecidableEq

/-- BumpAllocator new. -/
def BumpAllocator.new (heap_start heap_size : Nat) : BumpAllocator :=
  ⟨heap_start, heap_start + heap_size, heap_start, 0⟩

/-- BumpAllocator alloc: align next up, check the end for overflow and against
heap_end; on failure return the null sentinel (0) with the state unchanged,
otherwise advance next, count the allocation and return the aligned start. -/
def BumpAllocator.alloc (b : BumpAllocator) (layout : Layout) : Nat × BumpAllocator :=
  let alloc_start := align_up b.next layout.align
  match checked_add alloc_start layout.size with
  | none => (0, b)
  | some alloc_end =>
    if alloc_end > b.heap_end then (0, b)
    else (alloc_start, ⟨b.heap_start, b.heap_end, alloc_end, b.allocations + 1⟩)

/-- BumpAllocator dealloc: prints a diagnostic only, no state change. -/
def BumpAllocator.dealloc (b : BumpAllocator) (_ptr : Nat) (_layout : Layout) :
    BumpAllocator := b

/-- Run a sequence of bump-allocation requests, collecting for each call the
returned address paired with the request's size, together with the final
allocator state. -/
def bumpRun (b : BumpAllocator) : List Layout → List (Nat × Nat) × BumpAllocator
  | [] => ([], b)
  | lay :: lays =>
    let r := b.alloc lay
    let rest := bumpRun r.2 lays
    ((r.1, lay.size) :: rest.1, rest.2)

/-- Bump-allocator states reachable from new(heap_start, heap_size) by any
sequence of alloc calls (with genuine layouts, whose alignment is positive)
and dealloc calls. -/
inductive BumpReachable (hs hsz : Nat) : BumpAllocator → Prop where
  | init : BumpReachable hs hsz (BumpAllocator.new hs hsz)
  | step_alloc {b : BumpAllocator} (lay : Layout) (hal : 0 < lay.align) :
      BumpReachable hs hsz b → BumpReachable hs hsz (b.alloc lay).2
  | step_dealloc {b : BumpAllocator} (ptr : Nat) (lay : Layout) :
      BumpReachable hs hsz b → BumpReachable hs hsz (b.dealloc ptr lay)

/-! ## Helper lemmas -/

/-- Rounding up never moves an address down. -/
lemma align_up_ge (addr align : Nat) (h : 0 < align) : addr ≤ align_up addr align := by
  unfold align_up
  rw [Nat.mul_comm]
  have h1 := Nat.div_add_mod (addr + align - 1) align
  have h2 : (addr + align - 1) % align < align := Nat.mod_lt _ h
  revert h1 h2
  generalize (addr + align - 1) / align = q
  generalize (addr + align - 1) % align = r
  intro h1 h2
  have key : addr + r ≤ align * q + r := by rw [h1]; omega
  exact Nat.le_of_add_le_add_right key

/-- Rounding up fixes addresses that are already aligned. -/
lemma align_up_aligned (addr align : Nat) (h : 0 < align) (ha : addr % align = 0) :
    align_up addr align = addr := by
  obtain ⟨k, hk⟩ := Nat.dvd_of_mod_eq_zero ha
  subst hk
  unfold align_up
  have h1 : align * k + align - 1 = align * k + (align - 1) := by omega
  rw [h1, Nat.mul_add_div h, Nat.div_eq_of_lt (by omega), Nat.add_zero, Nat.mul_comm]

/-- The widened size is at least one node header. -/
lemma size_align_size_ge (lay : Layout) : listNodeSize ≤ (size_align lay).1 :=
  Nat.le_max_right _ _

/-- The widened alignment is at least the node alignment. -/
lemma size_align_align_ge (lay : Layout) : listNodeAlign ≤ (size_align lay).2 :=
  Nat.le_max_right _ _

/-- A successful add_free_block pushes exactly the given node on the front. -/
lemma add_free_block_some {l : FreeList} {addr size : Nat} {l' : FreeList}
    (h : add_free_block l addr size = some l') : l' = (addr, size) :: l := by
  unfold add_free_block at h
  split_ifs at h
  exact (Option.some.inj h).symm

/-- A successful check returns the aligned start, which together with the
requested size fits inside the block. -/
lemma check_some_bounds {addr nsize size align : Nat} {x : Nat}
    (h : check_block_for_alloc addr nsize size align = some x) :
    x = align_up addr align ∧ align_up addr align + size ≤ end_addr addr nsize := by
  unfold check_block_for_alloc checked_add at h
  dsimp only at h
  rcases Nat.lt_or_ge (align_up addr align + size) USIZE with h1 | h1
  · rw [if_pos h1] at h
    dsimp only at h
    rcases Nat.lt_or_ge (end_addr addr nsize) (align_up addr align + size) with h2 | h2
    · rw [if_pos h2] at h
      cases h
    · rw [if_neg (by omega)] at h
      split_ifs at h
      exact ⟨(Option.some.inj h).symm, h2⟩
  · rw [if_neg (by omega)] at h
    cases h

lemma totalFree_cons (p : Nat × Nat) (l : FreeList) :
    totalFree (p :: l) = p.2 + totalFree l := by
  simp [totalFree]

/-- A successful find_free_block returns a node of the list that passes the
check, and removes exactly that node: the sizes of the remaining nodes sum to
the old total minus the node's size. -/
lemma find_spec (l : FreeList) (size align : Nat) (b : Nat × Nat) (rest : FreeList)
    (h : find_free_block l size align = some (b, rest)) :
    check_block_for_alloc b.1 b.2 size align = some (align_up b.1 align) ∧
    b ∈ l ∧ totalFree l = b.2 + totalFree rest := by
  induction l generalizing rest with
  | nil => cases h
  | cons hd tl ih =>
    unfold find_free_block at h
    cases hc : check_block_for_alloc hd.1 hd.2 size align with
    | some x =>
      rw [hc] at h
      dsimp only at h
      have hpq : (hd, tl) = (b, rest) := Option.some.inj h
      rw [Prod.mk.injEq] at hpq
      obtain ⟨hb, hrest⟩ := hpq
      subst hb
      subst hrest
      have hx := (check_some_bounds hc).1
      subst hx
      exact ⟨hc, List.mem_cons_self _ _, totalFree_cons _ _⟩
    | none =>
      rw [hc] at h
      cases hf : find_free_block tl size align with
      | none => rw [hf] at h; cases h
      | some pr =>
        obtain ⟨r, l2⟩ := pr
        rw [hf] at h
        dsimp only at h
        have hpq : (r, hd :: l2) = (b, rest) := Option.some.inj h
        rw [Prod.mk.injEq] at hpq
        obtain ⟨hb, hrest⟩ := hpq
        subst hb
        subst hrest
        obtain ⟨hck, hmem, htot⟩ := ih l2 hf
        refine ⟨hck, List.mem_cons_of_mem _ hmem, ?_⟩
        rw [totalFree_cons, totalFree_cons, htot]
        omega

/-- A block smaller than the requested size never passes the check. -/
lemma check_none_of_small (addr nsize size align : Nat) (hal : 0 < align)
    (hb : addr + nsize < USIZE) (hsmall : nsize < size) :
    check_block_for_alloc addr nsize size align = none := by
  have hge := align_up_ge addr align hal
  have hend : end_addr addr nsize = addr + nsize := Nat.mod_eq_of_lt hb
  unfold check_block_for_alloc checked_add
  dsimp only
  rcases Nat.lt_or_ge (align_up addr align + size) USIZE with hc | hc
  · rw [if_pos hc]
    dsimp only
    rw [if_pos (by omega)]
  · rw [if_neg (by omega)]

/-- If no node passes the check, the scan comes up empty. -/
lemma find_none_of_all (l : FreeList) (size align : Nat)
    (h : ∀ b ∈ l, check_block_for_alloc b.1 b.2 size align = none) :
    find_free_block l size align = none := by
  induction l with
  | nil => rfl
  | cons hd tl ih =>
    unfold find_free_block
    rw [h hd (List.mem_cons_self _ _), ih (fun b hb => h b (List.mem_cons_of_mem _ hb))]

/-- When the scan fails, alloc returns the null sentinel and the unchanged
free list. -/
lemma list_alloc_find_none {l : FreeList} {lay : Layout}
    (h : find_free_block l (size_align lay).1 (size_align lay).2 = none) :
    list_alloc l lay = some (0, l) := by
  unfold list_alloc
  dsimp only
  rw [h]

/-- Release at a node-aligned address always succeeds (the widened size is at
least a node header) and pushes the node on the front. -/
lemma list_dealloc_eq {l : FreeList} {ptr : Nat} (lay : Layout)
    (h : align_up ptr listNodeAlign = ptr) :
    list_dealloc l ptr lay = some ((ptr, (size_align lay).1) :: l) := by
  unfold list_dealloc add_free_block
  rw [if_pos ⟨h, size_align_size_ge lay⟩]

/-- The bump cursor never moves backwards, also on failure. -/
lemma bump_alloc_next_mono (b : BumpAllocator) (lay : Layout) (hal : 0 < lay.align) :
    b.next ≤ (b.alloc lay).2.next := by
  unfold BumpAllocator.alloc checked_add
  dsimp only
  rcases Nat.lt_or_ge (align_up b.next lay.align + lay.size) USIZE with h | h
  · rw [if_pos h]
    dsimp only
    by_cases h2 : align_up b.next lay.align + lay.size > b.heap_end
    · rw [if_pos h2]
    · rw [if_neg h2]
      have := align_up_ge b.next lay.align hal
      dsimp only
      omega
  · rw [if_neg (by omega)]

/-- A non-null bump allocation returns the aligned cursor and advances the
cursor to the end of the handed-out range. -/
lemma bump_alloc_success (b : BumpAllocator) (lay : Layout) (h : (b.alloc lay).1 ≠ 0) :
    (b.alloc lay).1 = align_up b.next lay.align ∧
    (b.alloc lay).2.next = align_up b.next lay.align + lay.size := by
  unfold BumpAllocator.alloc checked_add at h ⊢
  dsimp only at h ⊢
  rcases Nat.lt_or_ge (align_up b.next lay.align + lay.size) USIZE with hc | hc
  · rw [if_pos hc] at h ⊢
    dsimp only at h ⊢
    by_cases h2 : align_up b.next lay.align + lay.size > b.heap_end
    · rw [if_pos h2] at h
      exact absurd rfl h
    · rw [if_neg h2] at h ⊢
      exact ⟨rfl, rfl⟩
  · rw [if_neg (by omega)] at h
    exact absurd rfl h

/-- The bump cursor never moves backwards over a whole run. -/
lemma bumpRun_next_le (b : BumpAllocator) (lays : List Layout)
    (hval : ∀ l ∈ lays, 0 < l.align) :
    b.next ≤ (bumpRun b lays).2.next := by
  induction lays generalizing b with
  | nil => exact le_refl _
  | cons lay lays ih =>
    have h1 := bump_alloc_next_mono b lay (hval lay (List.mem_cons_self _ _))
    have h2 := ih (b.alloc lay).2 (fun l hl => hval l (List.mem_cons_of_mem _ hl))
    simp only [bumpRun]
    exact le_trans h1 h2

/-- In a fully successful run, every handed-out range lies between the
starting cursor and the final cursor. -/
lemma bumpRun_bounds (lays : List Layout) (b : BumpAllocator)
    (hval : ∀ l ∈ lays, 0 < l.align)
    (hsucc : ∀ p ∈ (bumpRun b lays).1, p.1 ≠ 0) :
    ∀ p ∈ (bumpRun b lays).1, b.next ≤ p.1 ∧ p.1 + p.2 ≤ (bumpRun b lays).2.next := by
  induction lays generalizing b with
  | nil =>
    intro p hp
    simp [bumpRun] at hp
  | cons lay lays ih =>
    intro p hp
    simp only [bumpRun, List.mem_cons] at hp
    have htl : ∀ l ∈ lays, 0 < l.align := fun l hl => hval l (List.mem_cons_of_mem _ hl)
    have hne : (b.alloc lay).1 ≠ 0 :=
      hsucc ((b.alloc lay).1, lay.size)
        (by simp only [bumpRun, List.mem_cons]; exact Or.inl trivial)
    obtain ⟨ha, hnext⟩ := bump_alloc_success b lay hne
    rcases hp with rfl | hp
    · constructor
      · rw [ha]
        exact align_up_ge _ _ (hval lay (List.mem_cons_self _ _))
      · have hle2 := bumpRun_next_le (b.alloc lay).2 lays htl
        simp only [bumpRun]
        omega
    · have hsucc2 : ∀ q ∈ (bumpRun (b.alloc lay).2 lays).1, q.1 ≠ 0 := by
        intro q hq
        exact hsucc q (by simp only [bumpRun, List.mem_cons]; exact Or.inr hq)
      have h2 := ih (b.alloc lay).2 htl hsucc2 p hp
      have h1 := bump_alloc_next_mono b lay (hval lay (List.mem_cons_self _ _))
      refine ⟨le_trans h1 h2.1, ?_⟩
      simp only [bumpRun]
      exact h2.2

/-- One bump allocation preserves the heap bounds, keeps the cursor inside
them, and never decreases the allocation count. -/
lemma bump_alloc_inv (b : BumpAllocator) (lay : Layout) (hal : 0 < lay.align)
    (h1 : b.heap_start ≤ b.next) (h2 : b.next ≤ b.heap_end) :
    (b.alloc lay).2.heap_start = b.heap_start ∧
    (b.alloc lay).2.heap_end = b.heap_end ∧
    b.heap_start ≤ (b.alloc lay).2.next ∧
    (b.alloc lay).2.next ≤ b.heap_end ∧
    b.allocations ≤ (b.alloc lay).2.allocations := by
  unfold BumpAllocator.alloc checked_add
  dsimp only
  rcases Nat.lt_or_ge (align_up b.next lay.align + lay.size) USIZE with hc | hc
  · rw [if_pos hc]
    dsimp only
    by_cases hh : align_up b.next lay.align + lay.size > b.heap_end
    · rw [if_pos hh]
      exact ⟨rfl, rfl, h1, h2, le_refl _⟩
    · rw [if_neg hh]
      dsimp only
      have := align_up_ge b.next lay.align hal
      exact ⟨rfl, rfl, by omega, by omega, Nat.le_succ _⟩
  · rw [if_neg (by omega)]
    exact ⟨rfl, rfl, h1, h2, le_refl _⟩

/-- The cursor of every reachable bump state lies inside the heap bounds. -/
lemma bump_reachable_inv (hs hsz : Nat) (b : BumpAllocator)
    (h : BumpReachable hs hsz b) :
    b.heap_start ≤ b.next ∧ b.next ≤ b.heap_end := by
  induction h with
  | init => exact ⟨le_refl _, Nat.le_add_right _ _⟩
  | step_alloc lay hal hr ih =>
    obtain ⟨e1, e2, g1, g2, _⟩ := bump_alloc_inv _ lay hal ih.1 ih.2
    exact ⟨e1 ▸ g1, e2 ▸ g2⟩
  | step_dealloc ptr lay hr ih => exact ih

/-! ## Claim theorems -/

/-- C2: on a freshly initialized free-list allocator over heap
[0x1000, 0x2000) (one free node spanning the whole heap), allocate(16, 8)
returns 0x1000, and afterwards the free list contains exactly one free node
at 0x1010 of size 4080. -/
theorem claim_C2 :
    list_init 0x1000 0x2000 = some [(0x1000, 0x1000)] ∧
    list_alloc [(0x1000, 0x1000)] ⟨16, 8⟩ = some (0x1000, [(0x1010, 4080)]) := by
  decide

/-- C1 evaluated at a failing input: with the reachable free list
[(0x1018, 4072)] (fresh heap [0x1000, 0x2000) after allocate(24, 8)), the
request (size 16, align 16) is accepted by check_block_for_alloc with aligned
start 0x1020, yet alloc returns the raw block start 0x1018, which is not a
multiple of 16; and on the free list [(0x1018, 24)] the same request passes
the check with excess 0 but alloc panics inside add_free_block. -/
theorem claim_C1_code_eval :
    list_alloc [(0x1018, 4072)] ⟨16, 16⟩ = some (0x1018, [(0x1028, 4056)]) ∧
    check_block_for_alloc 0x1018 4072 16 16 = some 0x1020 ∧
    0x1018 % 16 = 8 ∧
    list_alloc [(0x1018, 24)] ⟨16, 16⟩ = none := by
  decide

/-- C3: every successful release pushes a node of the recomputed widened size
at the released address onto the front of the free list; in the concrete
scenario, releasing the 0x1000 block of the fresh-heap allocation and
allocating (16, 8) again returns 0x1000 from the front node, leaving only the
0x1010 node. -/
theorem claim_C3 :
    (∀ (l : FreeList) (ptr : Nat) (layout : Layout) (l' : FreeList),
       list_dealloc l ptr layout = some l' →
       l' = (ptr, (size_align layout).1) :: l) ∧
    list_dealloc [(0x1010, 4080)] 0x1000 ⟨16, 8⟩ =
      some [(0x1000, 16), (0x1010, 4080)] ∧
    list_alloc [(0x1000, 16), (0x1010, 4080)] ⟨16, 8⟩ =
      some (0x1000, [(0x1010, 4080)]) := by
  refine ⟨?_, by decide, by decide⟩
  intro l ptr layout l' h
  unfold list_dealloc add_free_block at h
  split at h
  · exact ((Option.some.injEq _ _) ▸ h).symm
  · exact absurd h (by simp)

/-- C3 witness: the universally quantified part of C3 applied at the empty
free list, address 0x2000 and layout (8, 8). -/
theorem claim_C3_witness :
    ([(0x2000, 16)] : FreeList) = (0x2000, (size_align ⟨8, 8⟩).1) :: [] :=
  claim_C3.1 [] 0x2000 ⟨8, 8⟩ [(0x2000, 16)] (by decide)

/-- C8 counterexample: from the fresh bump allocator over [0x1000, 0x2000),
two consecutive size-0 allocations both succeed (non-null) and both return
0x1000, so the addresses of a successful sequence are not strictly
increasing when size-0 requests are included. -/
theorem claim_C8_counterexample :
    ((BumpAllocator.new 0x1000 0x1000).alloc ⟨0, 1⟩).1 = 0x1000 ∧
    (((BumpAllocator.new 0x1000 0x1000).alloc ⟨0, 1⟩).2.alloc ⟨0, 1⟩).1 = 0x1000 ∧
    (0x1000 : Nat) ≠ 0 ∧ ¬((0x1000 : Nat) < 0x1000) := by
  decide

/-- C5: releasing two contiguous blocks (into an otherwise fully allocated
heap) leaves two distinct nodes on the free list, and a request whose widened
size exceeds each node's size but is at most their sum fails with the null
sentinel, leaving the list unchanged: no coalescing ever occurs. -/
theorem claim_C5 (a1 a2 : Nat) (lay1 lay2 lay3 : Layout)
    (h1 : align_up a1 listNodeAlign = a1)
    (h2 : align_up a2 listNodeAlign = a2)
    (hcontig : a2 = a1 + (size_align lay1).1)
    (hbound : a2 + (size_align lay2).1 < USIZE)
    (hgt1 : (size_align lay1).1 < (size_align lay3).1)
    (hgt2 : (size_align lay2).1 < (size_align lay3).1)
    (hle : (size_align lay3).1 ≤ (size_align lay1).1 + (size_align lay2).1) :
    list_dealloc [] a1 lay1 = some [(a1, (size_align lay1).1)] ∧
    list_dealloc [(a1, (size_align lay1).1)] a2 lay2 =
      some [(a2, (size_align lay2).1), (a1, (size_align lay1).1)] ∧
    a1 ≠ a2 ∧
    list_alloc [(a2, (size_align lay2).1), (a1, (size_align lay1).1)] lay3 =
      some (0, [(a2, (size_align lay2).1), (a1, (size_align lay1).1)]) := by
  have hs1 : listNodeSize ≤ (size_align lay1).1 := size_align_size_ge lay1
  have h16 : listNodeSize = 16 := rfl
  have hal3 : 0 < (size_align lay3).2 :=
    lt_of_lt_of_le (by decide) (size_align_align_ge lay3)
  refine ⟨list_dealloc_eq lay1 h1, list_dealloc_eq lay2 h2, by omega, ?_⟩
  apply list_alloc_find_none
  apply find_none_of_all
  intro b hb
  simp only [List.mem_cons, List.not_mem_nil, or_false] at hb
  rcases hb with rfl | rfl
  · exact check_none_of_small _ _ _ _ hal3 hbound hgt2
  · exact check_none_of_small _ _ _ _ hal3 (by omega) hgt1

/-- C5 witness: two released 16-byte blocks at 0x1000 and 0x1010, then a
request of widened size 24. -/
theorem claim_C5_witness :
    list_dealloc [] 0x1000 ⟨16, 8⟩ = some [(0x1000, 16)] ∧
    list_dealloc [(0x1000, 16)] 0x1010 ⟨16, 8⟩ =
      some [(0x1010, 16), (0x1000, 16)] ∧
    (0x1000 : Nat) ≠ 0x1010 ∧
    list_alloc [(0x1010, 16), (0x1000, 16)] ⟨24, 8⟩ =
      some (0, [(0x1010, 16), (0x1000, 16)]) :=
  claim_C5 0x1000 0x1010 ⟨16, 8⟩ ⟨16, 8⟩ ⟨24, 8⟩ (by decide) (by decide) (by decide)
    (by decide) (by decide) (by decide) (by decide)

/-- C6: an allocation that succeeds (non-null, no panic) followed immediately
by its matching release restores the total number of free bytes on the free
list, for every well-formed state (every node's range representable). -/
theorem claim_C6 (l : FreeList) (lay : Layout) (a : Nat) (l1 l2 : FreeList)
    (hwf : ∀ p ∈ l, p.1 + p.2 < USIZE)
    (halloc : list_alloc l lay = some (a, l1))
    (hsucc : a ≠ 0)
    (hdealloc : list_dealloc l1 a lay = some l2) :
    totalFree l2 = totalFree l := by
  unfold list_alloc at halloc
  dsimp only at halloc
  cases hfind : find_free_block l (size_align lay).1 (size_align lay).2 with
  | none =>
    rw [hfind] at halloc
    dsimp only at halloc
    have hpq : ((0 : Nat), l) = (a, l1) := Option.some.inj halloc
    rw [Prod.mk.injEq] at hpq
    exact absurd hpq.1.symm hsucc
  | some pr =>
    obtain ⟨b, rest⟩ := pr
    rw [hfind] at halloc
    dsimp only at halloc
    obtain ⟨hcheck, hmem, htot⟩ := find_spec l _ _ b rest hfind
    have hwfb := hwf b hmem
    have hend : end_addr b.1 b.2 = b.1 + b.2 := Nat.mod_eq_of_lt hwfb
    have hal : 0 < (size_align lay).2 :=
      lt_of_lt_of_le (by decide) (size_align_align_ge lay)
    have hbounds := (check_some_bounds hcheck).2
    have hge := align_up_ge b.1 (size_align lay).2 hal
    have hadd : checked_add b.1 (size_align lay).1 = some (b.1 + (size_align lay).1) := by
      unfold checked_add
      rw [if_pos (by omega)]
    rw [hadd] at halloc
    dsimp only at halloc
    by_cases hex : end_addr b.1 b.2 - (b.1 + (size_align lay).1) > 0
    · rw [if_pos hex] at halloc
      cases hab : add_free_block rest (b.1 + (size_align lay).1)
          (end_addr b.1 b.2 - (b.1 + (size_align lay).1)) with
      | none => rw [hab] at halloc; cases halloc
      | some rest2 =>
        rw [hab] at halloc
        dsimp only at halloc
        have hpq : (b.1, rest2) = (a, l1) := Option.some.inj halloc
        rw [Prod.mk.injEq] at hpq
        obtain ⟨hb1, hrest2⟩ := hpq
        have hr2 := add_free_block_some hab
        have hl2 := add_free_block_some hdealloc
        subst hl2
        rw [totalFree_cons, ← hrest2, hr2, totalFree_cons, htot]
        omega
    · rw [if_neg hex] at halloc
      have hpq : (b.1, rest) = (a, l1) := Option.some.inj halloc
      rw [Prod.mk.injEq] at hpq
      obtain ⟨hb1, hrest⟩ := hpq
      have hl2 := add_free_block_some hdealloc
      subst hl2
      rw [totalFree_cons, ← hrest, htot]
      omega

/-- C6 witness: the fresh-heap allocate(16, 8) and its release. -/
theorem claim_C6_witness :
    totalFree [(0x1000, 16), (0x1010, 4080)] = totalFree [(0x1000, 0x1000)] :=
  claim_C6 [(0x1000, 0x1000)] ⟨16, 8⟩ 0x1000 [(0x1010, 4080)]
    [(0x1000, 16), (0x1010, 4080)] (by decide) (by decide) (by decide) (by decide)

/-- C7: bump alloc aligns next up to the request's alignment; if adding the
size overflows the address space or exceeds heap_end the call returns the
null sentinel with the allocator untouched, otherwise next becomes the
candidate end, the allocation count grows by one and the aligned address is
returned. -/
theorem claim_C7 (b : BumpAllocator) (lay : Layout) :
    (USIZE ≤ align_up b.next lay.align + lay.size → b.alloc lay = (0, b)) ∧
    (align_up b.next lay.align + lay.size < USIZE →
     b.heap_end < align_up b.next lay.align + lay.size → b.alloc lay = (0, b)) ∧
    (align_up b.next lay.align + lay.size < USIZE →
     align_up b.next lay.align + lay.size ≤ b.heap_end →
       b.alloc lay = (align_up b.next lay.align,
         ⟨b.heap_start, b.heap_end, align_up b.next lay.align + lay.size,
          b.allocations + 1⟩)) := by
  unfold BumpAllocator.alloc checked_add
  dsimp only
  refine ⟨fun h => ?_, fun h1 h2 => ?_, fun h1 h2 => ?_⟩
  · rw [if_neg (by omega)]
  · rw [if_pos h1]
    dsimp only
    rw [if_pos (by omega)]
  · rw [if_pos h1]
    dsimp only
    rw [if_neg (by omega)]

/-- C7 witness: the first allocation of the fresh bump heap. -/
theorem claim_C7_witness :
    (BumpAllocator.new 0x1000 0x1000).alloc ⟨16, 8⟩ =
      (0x1000, ⟨0x1000, 0x2000, 0x1010, 1⟩) :=
  (claim_C7 (BumpAllocator.new 0x1000 0x1000) ⟨16, 8⟩).2.2 (by decide) (by decide)

/-- C4: the first conjunct proves the rejection characterization exactly as
claimed: a block is rejected iff aligning its start and adding the widened
size overflows, exceeds the block's end, or leaves an excess strictly between
zero and one node header; the second conjunct shows scanning continues past a
rejected block.  The remaining conjuncts evaluate the code at the failing
input of the full-consumption half: on free list [(0x1018, 24)] the widened
request (16, 16) passes the check with excess 0, yet alloc does not consume
the block and decrement the node count by one: it recomputes the excess from
the unaligned block start (8 bytes) and panics inside add_free_block. -/
theorem claim_C4_rejection_and_bug :
    (∀ addr nsize size align : Nat,
       check_block_for_alloc addr nsize size align = none ↔
         (USIZE ≤ align_up addr align + size ∨
          end_addr addr nsize < align_up addr align + size ∨
          (0 < end_addr addr nsize - (align_up addr align + size) ∧
           end_addr addr nsize - (align_up addr align + size) < listNodeSize))) ∧
    (∀ (hd : Nat × Nat) (tl : FreeList) (size align : Nat),
       check_block_for_alloc hd.1 hd.2 size align = none →
       find_free_block (hd :: tl) size align =
         Option.map (fun pr => (pr.1, hd :: pr.2)) (find_free_block tl size align)) ∧
    check_block_for_alloc 0x1018 24 16 16 = some 0x1020 ∧
    end_addr 0x1018 24 - (align_up 0x1018 16 + 16) = 0 ∧
    list_alloc [(0x1018, 24)] ⟨16, 16⟩ = none := by
  refine ⟨?_, ?_, by decide, by decide, by decide⟩
  · intro addr nsize size align
    unfold check_block_for_alloc checked_add
    dsimp only
    rcases Nat.lt_or_ge (align_up addr align + size) USIZE with h1 | h1
    · rw [if_pos h1]
      dsimp only
      rcases Nat.lt_or_ge (end_addr addr nsize) (align_up addr align + size) with h2 | h2
      · rw [if_pos h2]
        exact iff_of_true rfl (Or.inr (Or.inl h2))
      · rw [if_neg (by omega)]
        by_cases h3 : 0 < end_addr addr nsize - (align_up addr align + size) ∧
            end_addr addr nsize - (align_up addr align + size) < listNodeSize
        · rw [if_pos h3]
          exact iff_of_true rfl (Or.inr (Or.inr h3))
        · rw [if_neg h3]
          refine iff_of_false (by simp) ?_
          push_neg at h3 ⊢
          exact ⟨by omega, h2, h3⟩
    · rw [if_neg (by omega)]
      exact iff_of_true rfl (Or.inl h1)
  · intro hd tl size align h
    cases hf : find_free_block tl size align with
    | none =>
      simp only [find_free_block, h, hf]
      rfl
    | some pr =>
      obtain ⟨r, l2⟩ := pr
      simp only [find_free_block, h, hf]
      rfl

/-- C8 (amended to requests of positive size): in a bump-allocation run in
which every request has positive size and alignment and every call returns a
non-null address, the returned addresses are strictly increasing and the
handed-out byte ranges are pairwise disjoint. -/
theorem claim_C8_amended (b : BumpAllocator) (lays : List Layout)
    (hval : ∀ l ∈ lays, 0 < l.align ∧ 1 ≤ l.size)
    (hsucc : ∀ p ∈ (bumpRun b lays).1, p.1 ≠ 0) :
    List.Pairwise (fun p q : Nat × Nat => p.1 < q.1 ∧ p.1 + p.2 ≤ q.1)
      (bumpRun b lays).1 := by
  induction lays generalizing b with
  | nil => exact List.Pairwise.nil
  | cons lay lays ih =>
    have htl : ∀ l ∈ lays, 0 < l.align ∧ 1 ≤ l.size :=
      fun l hl => hval l (List.mem_cons_of_mem _ hl)
    have hne : (b.alloc lay).1 ≠ 0 :=
      hsucc ((b.alloc lay).1, lay.size)
        (by simp only [bumpRun, List.mem_cons]; exact Or.inl trivial)
    have hsucc2 : ∀ q ∈ (bumpRun (b.alloc lay).2 lays).1, q.1 ≠ 0 := by
      intro q hq
      exact hsucc q (by simp only [bumpRun, List.mem_cons]; exact Or.inr hq)
    obtain ⟨ha, hnext⟩ := bump_alloc_success b lay hne
    have hsize : 1 ≤ lay.size := (hval lay (List.mem_cons_self _ _)).2
    simp only [bumpRun]
    refine List.Pairwise.cons ?_ (ih (b.alloc lay).2 htl hsucc2)
    intro q hq
    have hb := bumpRun_bounds lays (b.alloc lay).2
      (fun l hl => (htl l hl).1) hsucc2 q hq
    omega

/-- C8 witness: three size-8 allocations from the fresh bump heap. -/
theorem claim_C8_amended_witness :
    List.Pairwise (fun p q : Nat × Nat => p.1 < q.1 ∧ p.1 + p.2 ≤ q.1)
      (bumpRun (BumpAllocator.new 0x1000 0x1000) [⟨8, 4⟩, ⟨8, 4⟩, ⟨8, 4⟩]).1 :=
  claim_C8_amended (BumpAllocator.new 0x1000 0x1000) [⟨8, 4⟩, ⟨8, 4⟩, ⟨8, 4⟩]
    (by decide) (by decide)

/-- C9: every reachable bump-allocator state keeps heap_start ≤ next ≤
heap_end, and the allocation count never decreases across an alloc and is
unchanged by a dealloc. -/
theorem claim_C9 (hs hsz : Nat) (hrep : hs + hsz < USIZE) (b : BumpAllocator)
    (hreach : BumpReachable hs hsz b) (lay : Layout) (hal : 0 < lay.align)
    (ptr : Nat) :
    (b.heap_start ≤ b.next ∧ b.next ≤ b.heap_end) ∧
    b.allocations ≤ ((b.alloc lay).2).allocations ∧
    ((b.dealloc ptr lay)).allocations = b.allocations := by
  have hinv := bump_reachable_inv hs hsz b hreach
  exact ⟨hinv, (bump_alloc_inv b lay hal hinv.1 hinv.2).2.2.2.2, rfl⟩

/-- C9 witness: the freshly constructed bump allocator. -/
theorem claim_C9_witness :
    ((BumpAllocator.new 0x1000 0x1000).heap_start ≤
       (BumpAllocator.new 0x1000 0x1000).next ∧
     (BumpAllocator.new 0x1000 0x1000).next ≤
       (BumpAllocator.new 0x1000 0x1000).heap_end) ∧
    (BumpAllocator.new 0x1000 0x1000).allocations ≤
      (((BumpAllocator.new 0x1000 0x1000).alloc ⟨16, 8⟩).2).allocations ∧
    (((BumpAllocator.new 0x1000 0x1000).dealloc 0x1000 ⟨16, 8⟩)).allocations =
      (BumpAllocator.new 0x1000 0x1000).allocations :=
  claim_C9 0x1000 0x1000 (by decide) _ BumpReachable.init ⟨16, 8⟩ (by decide) 0x1000

/-- C10: a failed allocation (null sentinel returned) leaves the allocator
state unchanged: the bump allocator keeps all its fields (given that the
cursor is above address 0, as it is below any real heap), and the free-list
allocator keeps its free list identical (given that no free node lies at
address 0, as in every state of a heap above address 0). -/
theorem claim_C10 :
    (∀ (b : BumpAllocator) (lay : Layout), 0 < lay.align → 0 < b.next →
       (b.alloc lay).1 = 0 → (b.alloc lay).2 = b) ∧
    (∀ (l : FreeList) (lay : Layout) (a : Nat) (l1 : FreeList),
       (∀ p ∈ l, 0 < p.1) → list_alloc l lay = some (a, l1) → a = 0 → l1 = l) := by
  constructor
  · intro b lay hal hnext h
    unfold BumpAllocator.alloc checked_add at h ⊢
    dsimp only at h ⊢
    rcases Nat.lt_or_ge (align_up b.next lay.align + lay.size) USIZE with hc | hc
    · rw [if_pos hc] at h ⊢
      dsimp only at h ⊢
      by_cases h2 : align_up b.next lay.align + lay.size > b.heap_end
      · rw [if_pos h2]
      · rw [if_neg h2] at h
        dsimp only at h
        have := align_up_ge b.next lay.align hal
        omega
    · rw [if_neg (by omega)]
  · intro l lay a l1 hpos halloc ha
    subst ha
    unfold list_alloc at halloc
    dsimp only at halloc
    cases hfind : find_free_block l (size_align lay).1 (size_align lay).2 with
    | none =>
      rw [hfind] at halloc
      dsimp only at halloc
      have hpq : ((0 : Nat), l) = ((0 : Nat), l1) := Option.some.inj halloc
      rw [Prod.mk.injEq] at hpq
      exact hpq.2.symm
    | some pr =>
      obtain ⟨b, rest⟩ := pr
      rw [hfind] at halloc
      dsimp only at halloc
      obtain ⟨_, hmem, _⟩ := find_spec l _ _ b rest hfind
      have hb1 : 0 < b.1 := hpos b hmem
      exfalso
      cases hca : checked_add b.1 (size_align lay).1 with
      | none => rw [hca] at halloc; cases halloc
      | some ae =>
        rw [hca] at halloc
        dsimp only at halloc
        by_cases hex : end_addr b.1 b.2 - ae > 0
        · rw [if_pos hex] at halloc
          cases hab : add_free_block rest ae (end_addr b.1 b.2 - ae) with
          | none => rw [hab] at halloc; cases halloc
          | some rest2 =>
            rw [hab] at halloc
            dsimp only at halloc
            have hpq : (b.1, rest2) = ((0 : Nat), l1) := Option.some.inj halloc
            rw [Prod.mk.injEq] at hpq
            omega
        · rw [if_neg hex] at halloc
          have hpq : (b.1, rest) = ((0 : Nat), l1) := Option.some.inj halloc
          rw [Prod.mk.injEq] at hpq
          omega

/-- C10 witness: an out-of-memory allocation on each allocator over the
16-byte heap at 0x1000. -/
theorem claim_C10_witness :
    ((BumpAllocator.new 0x1000 16).alloc ⟨32, 8⟩).2 = BumpAllocator.new 0x1000 16 ∧
    ([(0x1000, 16)] : FreeList) = [(0x1000, 16)] :=
  ⟨claim_C10.1 (BumpAllocator.new 0x1000 16) ⟨32, 8⟩ (by decide) (by decide) (by decide),
   claim_C10.2 [(0x1000, 16)] ⟨32, 8⟩ 0 [(0x1000, 16)] (by decide) (by decide) rfl⟩

end HhuTOS
